import Mathlib

/-!
Shallow embedding of `transferMatrix.py` (PyTMM): a transfer-matrix-method
library for dielectric layer stacks over 2x2 complex matrices, together with
the forward solver `solvePropagation` and the three inverse solvers
`findReciprocalTransferMatrix`, `findReciprocalTransferMatrixLegacy` and
`findGeneralizedTransferMatrix`.

Floating-point complex arithmetic is modelled by exact arithmetic on `ℂ`;
`numpy.linalg.solve` and `numpy.linalg.inv` are modelled as failing exactly
on singular inputs (`LinAlgError`), returning `Except Err _`.
-/

open scoped ComplexConjugate

noncomputable section

/-- Error kinds of the library, following the spec's taxonomy:
`invalidArgument` for a violated explicit precondition (the Python
`assert transmittance != 0`), `singularMatrix` for `numpy.linalg.inv` on a
singular matrix, `singularSystem` for `numpy.linalg.solve` on a singular
system. -/
inductive Err : Type
  | invalidArgument : Err
  | singularMatrix : Err
  | singularSystem : Err
deriving DecidableEq

/-- The 2x2 complex matrices wrapped by the Python class `TransferMatrix`. -/
abbrev Mat : Type := Matrix (Fin 2) (Fin 2) ℂ

/-- Model of `numpy.linalg.solve` on an `m × m` system over a field:
raises `LinAlgError` exactly on a singular coefficient matrix, otherwise
returns the unique solution of `A x = b`. -/
def npSolve {m : ℕ} {K : Type} [Field K] [DecidableEq K]
    (A : Matrix (Fin m) (Fin m) K) (b : Fin m → K) : Except Err (Fin m → K) :=
  if A.det = 0 then .error .singularSystem else .ok (A⁻¹.mulVec b)

/-- Model of `numpy.linalg.inv`: raises `LinAlgError` exactly on a singular
matrix, otherwise returns the inverse. -/
def npInv (A : Mat) : Except Err Mat :=
  if A.det = 0 then .error .singularMatrix else .ok A⁻¹

theorem npSolve_singular {m : ℕ} {K : Type} [Field K] [DecidableEq K]
    (A : Matrix (Fin m) (Fin m) K) (b : Fin m → K) (hd : A.det = 0) :
    npSolve A b = .error .singularSystem := by
  simp [npSolve, hd]

theorem npSolve_eq_ok {m : ℕ} {K : Type} [Field K] [DecidableEq K]
    (A : Matrix (Fin m) (Fin m) K) (b x : Fin m → K)
    (hd : A.det ≠ 0) (hx : A.mulVec x = b) :
    npSolve A b = .ok x := by
  have h1 : A⁻¹.mulVec b = x := by
    rw [← hx, Matrix.mulVec_mulVec, Matrix.nonsing_inv_mul A (isUnit_iff_ne_zero.2 hd),
      Matrix.one_mulVec]
  simp [npSolve, hd, h1]

theorem npInv_eq_ok (A : Mat) (hd : A.det ≠ 0) : npInv A = .ok A⁻¹ := by
  simp [npInv, hd]

theorem npInv_eq_ok_of_mul_eq_one (A B : Mat) (h : A * B = 1) : npInv A = .ok B := by
  have hd : A.det ≠ 0 := by
    intro h0
    have := congrArg Matrix.det h
    rw [Matrix.det_mul, h0, zero_mul, Matrix.det_one] at this
    exact zero_ne_one this
  rw [npInv_eq_ok A hd, Matrix.inv_eq_right_inv h]

namespace TransferMatrix

/-- `TransferMatrix.structure(*args)`: starts from the 2x2 identity and, for
each argument `m` in order (bottom to top), replaces the accumulator `mat`
by `numpy.dot(m.matrix, mat)`.  (Named `compose` here because `structure`
is a Lean keyword; the spec also calls this operation `compose`.) -/
def compose (args : List Mat) : Mat :=
  args.foldl (fun mat m => m * mat) 1

theorem compose_nil : compose [] = 1 := rfl

theorem compose_foldl (args : List Mat) (acc : Mat) :
    args.foldl (fun mat m => m * mat) acc = (args.reverse).prod * acc := by
  induction args generalizing acc with
  | nil => simp [List.foldl]
  | cons a l ih =>
      simp only [List.foldl, List.reverse_cons, List.prod_append, List.prod_cons,
        List.prod_nil, ih (a * acc)]
      rw [mul_one, mul_assoc]

/-- `TransferMatrix.layer(n, d, wavelength)`: an Air–Dielectric–Air sandwich,
`structure(bottomBoundary, propagation, topBoundary)`. -/
def layer (n : ℂ) (d wavelength : ℝ) : Mat :=
  let bottomBoundary : Mat :=
    !![(1 + n) / (2 * n), (n - 1) / (2 * n); (n - 1) / (2 * n), (1 + n) / (2 * n)]
  let topBoundary : Mat :=
    !![(1 + n) / 2, -(n - 1) / 2; -(n - 1) / 2, (1 + n) / 2]
  let propagation : Mat :=
    !![Complex.exp (-Complex.I * n * d * 2 * Real.pi / wavelength), 0;
       0, Complex.exp (Complex.I * n * d * 2 * Real.pi / wavelength)]
  compose [bottomBoundary, propagation, topBoundary]

/-- `TransferMatrix.boundingLayer(n1, n2)`: one dielectric–dielectric boundary. -/
def boundingLayer (n1 n2 : ℂ) : Mat :=
  !![(n1 + n2) / (2 * n2), (n2 - n1) / (2 * n2); (n2 - n1) / (2 * n2), (n1 + n2) / (2 * n2)]

/-- `TransferMatrix.propagationLayer(n, d, wavelength)`: the diagonal phase matrix. -/
def propagationLayer (n : ℂ) (d wavelength : ℝ) : Mat :=
  !![Complex.exp (-Complex.I * n * d * 2 * Real.pi / wavelength), 0;
     0, Complex.exp (Complex.I * n * d * 2 * Real.pi / wavelength)]

end TransferMatrix

/-- The 2x2 coefficient matrix assembled by `solvePropagation`:
`[[T01, -1], [T11, 0]]`. -/
def solveLhs (T : Mat) : Mat := !![T 0 1, -1; T 1 1, 0]

/-- The right-hand side assembled by `solvePropagation`:
`[-T00, -T10]` multiplied componentwise by the incident field. -/
def solveRhs (T : Mat) (incidentField : ℂ) : Fin 2 → ℂ :=
  fun i => ![-(T 0 0), -(T 1 0)] i * incidentField

/-- `solvePropagation(transferMatrix, incidentField=1.0)`: solves
`lhs · (reflectance, transmittance)ᵗ = rhs` by `numpy.linalg.solve` and
returns `(reflectance, transmittance) = (res[0], res[1])`. -/
def solvePropagation (T : Mat) (incidentField : ℂ) : Except Err (ℂ × ℂ) :=
  (npSolve (solveLhs T) (solveRhs T incidentField)).map fun res => (res 0, res 1)

/-- `findReciprocalTransferMatrix(transmittance, reflectance, bottomMat, topMat)`:
asserts `transmittance != 0`, builds the reciprocal ansatz matrix
`[[1/conj t, r/t], [conj (r/t), 1/t]]`, then multiplies by the inverses of the
bounding matrices: `inv(bottomMat) · M · inv(topMat)`. -/
def findReciprocalTransferMatrix (transmittance reflectance : ℂ)
    (bottomMat topMat : Mat) : Except Err Mat :=
  if transmittance = 0 then .error .invalidArgument
  else do
    let matrix : Mat :=
      !![1 / conj transmittance, reflectance / transmittance;
         conj (reflectance / transmittance), 1 / transmittance]
    let bInv ← npInv bottomMat
    let matrix := bInv * matrix
    let tInv ← npInv topMat
    return matrix * tInv

/-- The real 4x4 coefficient matrix assembled by
`findReciprocalTransferMatrixLegacy`:
`vstack((hstack((a, b)), hstack((b, a))))` with `a = identity(2)` and
`b = [[Re r, Im r], [Im r, -Re r]]`. -/
def legacyLhs (reflectance : ℂ) : Matrix (Fin 4) (Fin 4) ℝ :=
  !![1, 0, reflectance.re, reflectance.im;
     0, 1, reflectance.im, -reflectance.re;
     reflectance.re, reflectance.im, 1, 0;
     reflectance.im, -reflectance.re, 0, 1]

/-- The real right-hand side assembled by `findReciprocalTransferMatrixLegacy`:
`[Re t, Im t, 0, 0]`. -/
def legacyRhs (transmittance : ℂ) : Fin 4 → ℝ :=
  ![transmittance.re, transmittance.im, 0, 0]

/-- `findReciprocalTransferMatrixLegacy(transmittance, reflectance, bottomMat,
topMat)`: solves the real/imaginary-decomposed 4x4 real system, reassembles the
complex matrix `[[res0 + i res1, res2 - i res3], [res2 + i res3, res0 - i res1]]`,
then multiplies by the inverses of the bounding matrices. -/
def findReciprocalTransferMatrixLegacy (transmittance reflectance : ℂ)
    (bottomMat topMat : Mat) : Except Err Mat := do
  let res ← npSolve (legacyLhs reflectance) (legacyRhs transmittance)
  let matrix : Mat :=
    !![(res 0 : ℂ) + (res 1 : ℂ) * Complex.I, (res 2 : ℂ) - (res 3 : ℂ) * Complex.I;
       (res 2 : ℂ) + (res 3 : ℂ) * Complex.I, (res 0 : ℂ) - (res 1 : ℂ) * Complex.I]
  let bInv ← npInv bottomMat
  let matrix := bInv * matrix
  let tInv ← npInv topMat
  return matrix * tInv

/-- `findGeneralizedTransferMatrix(t1, r1, t2, r2, bottomMat1, topMat1,
bottomMat2, topMat2)`: builds `a12 = inv(bottomMat1) · (t1, 0)ᵗ`,
`a34 = inv(bottomMat2) · (t2, 0)ᵗ`, `b12 = topMat1 · (1, r1)ᵗ`,
`b34 = topMat2 · (1, r2)ᵗ`, assembles the block-diagonal 4x4 system
`vstack((hstack((bmat, 0)), hstack((0, bmat)))) · res = (a12_0, a34_0, a12_1, a34_1)`
with `bmat = [[b12_0, b12_1], [b34_0, b34_1]]`, solves it, and returns
`[[res0, res2], [res1, res3]]`. -/
def findGeneralizedTransferMatrix (t1 r1 t2 r2 : ℂ)
    (bottomMat1 topMat1 bottomMat2 topMat2 : Mat) : Except Err Mat := do
  let b1Inv ← npInv bottomMat1
  let a12 := b1Inv.mulVec ![t1, 0]
  let b2Inv ← npInv bottomMat2
  let a34 := b2Inv.mulVec ![t2, 0]
  let b12 := topMat1.mulVec ![1, r1]
  let b34 := topMat2.mulVec ![1, r2]
  let rhs : Fin 4 → ℂ := ![a12 0, a34 0, a12 1, a34 1]
  let lhs : Matrix (Fin 4) (Fin 4) ℂ :=
    !![b12 0, b12 1, 0, 0;
       b34 0, b34 1, 0, 0;
       0, 0, b12 0, b12 1;
       0, 0, b34 0, b34 1]
  let res ← npSolve lhs rhs
  return !![res 0, res 2; res 1, res 3]

/-! ### State-passing embedding of calls, for the frame claim

The Python arguments `bottomMat` and `topMat` are mutable `TransferMatrix`
objects.  A call is embedded as returning, besides the result, the post-call
values of the argument matrices.  The bodies of the three inverse solvers only
read `bottomMat.matrix` / `topMat.matrix` and never assign to them
(`numpy.linalg.inv` and `numpy.dot` allocate fresh arrays), so the post-call
values are the pre-call values. -/

/-- State-passing form of a `findReciprocalTransferMatrix` call: result plus
post-call values of the `bottomMat` and `topMat` argument buffers. -/
def findReciprocalTransferMatrixCall (t r : ℂ) (bottomMat topMat : Mat) :
    Except Err Mat × Mat × Mat :=
  (findReciprocalTransferMatrix t r bottomMat topMat, bottomMat, topMat)

/-- State-passing form of a `findReciprocalTransferMatrixLegacy` call. -/
def findReciprocalTransferMatrixLegacyCall (t r : ℂ) (bottomMat topMat : Mat) :
    Except Err Mat × Mat × Mat :=
  (findReciprocalTransferMatrixLegacy t r bottomMat topMat, bottomMat, topMat)

/-- State-passing form of a `findGeneralizedTransferMatrix` call: result plus
post-call values of the four bounding-matrix argument buffers. -/
def findGeneralizedTransferMatrixCall (t1 r1 t2 r2 : ℂ)
    (bottomMat1 topMat1 bottomMat2 topMat2 : Mat) :
    Except Err Mat × (Mat × Mat) × (Mat × Mat) :=
  (findGeneralizedTransferMatrix t1 r1 t2 r2 bottomMat1 topMat1 bottomMat2 topMat2,
    (bottomMat1, topMat1), (bottomMat2, topMat2))

/-- The shared default bounding matrices `TransferMatrix(numpy.identity(2))`,
evaluated once at function definition time. -/
def defaultBoundingMat : Mat := 1

/-- The state of the two shared default argument objects of
`findReciprocalTransferMatrix` after `n` successive calls that use the
defaults, each call threading the defaults through the state-passing call. -/
def reciprocalDefaultsAfter (t r : ℂ) : ℕ → Mat × Mat
  | 0 => (defaultBoundingMat, defaultBoundingMat)
  | n + 1 =>
      (findReciprocalTransferMatrixCall t r
        (reciprocalDefaultsAfter t r n).1 (reciprocalDefaultsAfter t r n).2).2

end

/-! ### Dtype model for the construction operations

`numpy` array dtypes are modelled by a two-valued type: the constructors in
the source build their arrays with `dtype=numpy.complex64` (single-precision
complex); `numpy.dot` promotes to the wider of its two argument dtypes. -/

/-- Complex dtypes occurring in the source: `numpy.complex64`
(single-precision) and `numpy.complex128` (double-precision). -/
inductive NpDtype : Type
  | c64 : NpDtype
  | c128 : NpDtype
deriving DecidableEq

/-- Dtype of `numpy.dot` of two complex arrays: the wider of the two. -/
def promoteDtype : NpDtype → NpDtype → NpDtype
  | .c64, .c64 => .c64
  | _, _ => .c128

/-- Dtype of `TransferMatrix.structure(*args)`: the accumulator starts as
`numpy.identity(2, dtype=numpy.complex64)` and each `numpy.dot(m.matrix, mat)`
promotes. -/
def structureDtype (args : List NpDtype) : NpDtype :=
  args.foldl (fun mat m => promoteDtype m mat) .c64

/-- Dtype of `TransferMatrix.layer`: `structure` applied to three arrays built
with `dtype=numpy.complex64`. -/
def layerDtype : NpDtype := structureDtype [.c64, .c64, .c64]

/-- Dtype of `TransferMatrix.boundingLayer`: built with `dtype=numpy.complex64`. -/
def boundingLayerDtype : NpDtype := .c64

/-- Dtype of `TransferMatrix.propagationLayer`: built with `dtype=numpy.complex64`. -/
def propagationLayerDtype : NpDtype := .c64

/-- A dtype holds double-precision entries iff it is `numpy.complex128`. -/
def isDoublePrecision (d : NpDtype) : Prop := d = NpDtype.c128

/-- State-passing form of a `TransferMatrix.structure` call: the body only
reads `m.matrix` of each argument and allocates fresh arrays via `numpy.dot`,
so the post-call argument values are the pre-call ones. -/
noncomputable def composeCall (args : List Mat) : Mat × List Mat :=
  (TransferMatrix.compose args, args)

section Helpers

theorem mulVec_nonsing_inv_mulVec {m : ℕ} {K : Type} [Field K] [DecidableEq K]
    (A : Matrix (Fin m) (Fin m) K) (b : Fin m → K) (hd : A.det ≠ 0) :
    A.mulVec (A⁻¹.mulVec b) = b := by
  rw [Matrix.mulVec_mulVec, Matrix.mul_nonsing_inv A (isUnit_iff_ne_zero.2 hd),
    Matrix.one_mulVec]

theorem vec_eta {K : Type} (p : Fin 2 → K) : ![p 0, p 1] = p := by
  funext i
  fin_cases i <;> simp

end Helpers

theorem layer_one_eq (d w : ℝ) :
    TransferMatrix.layer 1 d w =
      !![Complex.exp (-Complex.I * 1 * d * 2 * Real.pi / w), 0;
         0, Complex.exp (Complex.I * 1 * d * 2 * Real.pi / w)] := by
  rw [TransferMatrix.layer]
  simp only [TransferMatrix.compose, List.foldl, mul_one]
  norm_num [Matrix.mul_fin_two, Matrix.one_fin_two]

/-- C1 counterexample: for `d = 1`, `λ = 2` (d ≥ 0, λ > 0) the matrix built by
`layer(n=1, d, λ)` yields reflectance `0` but transmittance exactly `-1`, the
opposite of `1`: the transmittance carries the propagation phase and is not
approximately `1`. -/
theorem layer_matched_transmittance_ne_one :
    solvePropagation (TransferMatrix.layer 1 1 2) 1 = .ok (0, -1) ∧ (-1 : ℂ) ≠ 1 := by
  constructor
  · rw [solvePropagation, layer_one_eq]
    have h1 : -Complex.I * 1 * ((1 : ℝ) : ℂ) * 2 * (Real.pi : ℂ) / ((2 : ℝ) : ℂ)
        = -(Real.pi * Complex.I) := by
      push_cast
      ring
    have h2 : Complex.I * 1 * ((1 : ℝ) : ℂ) * 2 * (Real.pi : ℂ) / ((2 : ℝ) : ℂ)
        = Real.pi * Complex.I := by
      push_cast
      ring
    rw [h1, h2, Complex.exp_neg, Complex.exp_pi_mul_I]
    have h3 : ((-1 : ℂ))⁻¹ = -1 := by norm_num
    rw [h3]
    rw [npSolve_eq_ok _ _ ![0, -1] ?hdet ?hx]
    · rfl
    case hdet =>
      simp [solveLhs, Matrix.det_fin_two_of]
    case hx =>
      funext i
      fin_cases i <;>
        simp [solveLhs, solveRhs, Matrix.mulVec, Matrix.dotProduct, Fin.sum_univ_two]
  · intro h
    have := congrArg Complex.re h
    norm_num at this

/-- C1 (amended): for every thickness `d ≥ 0` and wavelength `λ > 0`,
`solvePropagation` on the transfer matrix built by `layer(n=1, d, λ)` yields
reflectance exactly `0` and a transmittance of modulus `1` (a pure propagation
phase, not approximately `1` itself). -/
theorem layer_matched_no_reflection (d lam : ℝ) (hd : 0 ≤ d) (hlam : 0 < lam) :
    ∃ t : ℂ, solvePropagation (TransferMatrix.layer 1 d lam) 1 = .ok (0, t) ∧
      Complex.abs t = 1 := by
  refine ⟨Complex.exp (-Complex.I * 1 * d * 2 * Real.pi / lam), ?_, ?_⟩
  · rw [solvePropagation, layer_one_eq]
    rw [npSolve_eq_ok _ _ ![0, Complex.exp (-Complex.I * 1 * d * 2 * Real.pi / lam)]
      ?hdet ?hx]
    · rfl
    case hdet =>
      simp [solveLhs, Matrix.det_fin_two_of, Complex.exp_ne_zero]
    case hx =>
      funext i
      fin_cases i <;>
        simp [solveLhs, solveRhs, Matrix.mulVec, Matrix.dotProduct, Fin.sum_univ_two]
  · have h : -Complex.I * 1 * (d : ℂ) * 2 * (Real.pi : ℂ) / (lam : ℂ)
        = ((-(d * 2 * Real.pi / lam) : ℝ) : ℂ) * Complex.I := by
      push_cast
      ring
    rw [h, Complex.abs_exp_ofReal_mul_I]

/-- Witness for the amended C1 at `d = 1`, `λ = 2`. -/
theorem layer_matched_no_reflection_witness :
    (0 : ℝ) ≤ 1 ∧ (0 : ℝ) < 2 ∧
    ∃ t : ℂ, solvePropagation (TransferMatrix.layer 1 1 2) 1 = .ok (0, t) ∧
      Complex.abs t = 1 :=
  ⟨by norm_num, by norm_num, layer_matched_no_reflection 1 2 (by norm_num) (by norm_num)⟩

/-- C2: `solvePropagation(T, f)` returns the unique pair
`(reflectance, transmittance)` solving `lhs · (r, t)ᵗ = rhs` with
`lhs = [[T01, -1], [T11, 0]]` and `rhs = f · [-T00, -T10]`, and it fails with
a `SingularSystemError` exactly when this `lhs` is singular. -/
theorem solvePropagation_solves_system (T : Mat) (f : ℂ) :
    (∀ r t : ℂ, solvePropagation T f = .ok (r, t) →
      (solveLhs T).mulVec ![r, t] = solveRhs T f ∧
      ∀ p : Fin 2 → ℂ, (solveLhs T).mulVec p = solveRhs T f → p = ![r, t]) ∧
    (solvePropagation T f = .error .singularSystem ↔ (solveLhs T).det = 0) := by
  by_cases hd : (solveLhs T).det = 0
  · refine ⟨fun r t hok => ?_,
      by rw [solvePropagation, npSolve_singular _ _ hd]; exact ⟨fun _ => hd, fun _ => rfl⟩⟩
    rw [solvePropagation, npSolve_singular _ _ hd] at hok
    exact absurd hok (by simp [Except.map])
  · have hnp : npSolve (solveLhs T) (solveRhs T f) =
        .ok ((solveLhs T)⁻¹.mulVec (solveRhs T f)) := by
      simp [npSolve, hd]
    constructor
    · intro r t hok
      rw [solvePropagation, hnp] at hok
      simp only [Except.map, Except.ok.injEq, Prod.mk.injEq] at hok
      obtain ⟨hr, ht⟩ := hok
      have hrt : ![r, t] = (solveLhs T)⁻¹.mulVec (solveRhs T f) := by
        rw [← hr, ← ht, vec_eta]
      constructor
      · rw [hrt]
        exact mulVec_nonsing_inv_mulVec _ _ hd
      · intro p hp
        have : (solveLhs T)⁻¹.mulVec ((solveLhs T).mulVec p)
            = (solveLhs T)⁻¹.mulVec (solveRhs T f) := by rw [hp]
        rw [Matrix.mulVec_mulVec,
          Matrix.nonsing_inv_mul _ (isUnit_iff_ne_zero.2 hd), Matrix.one_mulVec] at this
        rw [hrt, this]
    · constructor
      · intro h
        rw [solvePropagation, hnp] at h
        exact absurd h (by simp [Except.map])
      · intro h
        exact absurd h hd

/-- C3: `findReciprocalTransferMatrix` with `transmittance = 0` fails with the
`InvalidArgumentError` of the explicit precondition check
(`assert transmittance != 0`), for every reflectance and bounding matrices. -/
theorem findReciprocalTransferMatrix_zero_transmittance (r : ℂ) (B P : Mat) :
    findReciprocalTransferMatrix 0 r B P = .error .invalidArgument := by
  simp [findReciprocalTransferMatrix]

theorem findReciprocal_unfold (t r : ℂ) (B P : Mat)
    (ht : t ≠ 0) (hB : B.det ≠ 0) (hP : P.det ≠ 0) :
    findReciprocalTransferMatrix t r B P =
      .ok (B⁻¹ * !![1 / conj t, r / t; conj (r / t), 1 / t] * P⁻¹) := by
  rw [findReciprocalTransferMatrix, if_neg ht]
  simp only [npInv_eq_ok B hB, npInv_eq_ok P hP]
  rfl

/-- C4: for `t ≠ 0` and invertible bounding matrices,
`findReciprocalTransferMatrix(t, r, B, P)` returns
`B⁻¹ * [[1/conj t, r/t], [conj (r/t), 1/t]] * P⁻¹`. -/
theorem findReciprocalTransferMatrix_formula (t r : ℂ) (B P : Mat)
    (ht : t ≠ 0) (hB : B.det ≠ 0) (hP : P.det ≠ 0) :
    findReciprocalTransferMatrix t r B P =
      .ok (B⁻¹ * !![1 / conj t, r / t; conj (r / t), 1 / t] * P⁻¹) :=
  findReciprocal_unfold t r B P ht hB hP

/-- Witness for C4 at `t = 1`, `r = 0`, identity bounding matrices. -/
theorem findReciprocalTransferMatrix_formula_witness :
    (1 : ℂ) ≠ 0 ∧ (1 : Mat).det ≠ 0 ∧
    findReciprocalTransferMatrix 1 0 1 1 =
      .ok ((1 : Mat)⁻¹ * !![1 / conj 1, 0 / 1; conj (0 / 1), 1 / 1] * (1 : Mat)⁻¹) :=
  ⟨one_ne_zero, by simp,
    findReciprocalTransferMatrix_formula 1 0 1 1 one_ne_zero (by simp) (by simp)⟩

/-- C7: `compose` (the Python `TransferMatrix.structure`) of matrices listed
bottom-to-top is the product `m_k * … * m_1`; with zero arguments it is the
2x2 identity; and the state-passing call leaves the arguments unchanged. -/
theorem compose_product_spec :
    TransferMatrix.compose [] = (1 : Mat) ∧
    (∀ args : List Mat, TransferMatrix.compose args = args.reverse.prod) ∧
    (∀ args : List Mat, (composeCall args).2 = args) := by
  refine ⟨rfl, fun args => ?_, fun args => rfl⟩
  rw [TransferMatrix.compose, TransferMatrix.compose_foldl, mul_one]

/-- C9 counterexample: the matrix built by `TransferMatrix.layer` does not
hold double-precision entries — its arrays are created with
`dtype=numpy.complex64` (single precision). -/
theorem layer_dtype_not_double : ¬ isDoublePrecision layerDtype := by
  intro h
  rw [isDoublePrecision] at h
  exact absurd h (by decide)

/-- C9 (amended): the construction operations produce single-precision
`complex64` matrices: `layer`, `boundingLayer`, `propagationLayer` always, and
`structure`/`compose` whenever all its arguments are `complex64` (in
particular with zero arguments). -/
theorem construction_dtypes_single_precision :
    layerDtype = NpDtype.c64 ∧ boundingLayerDtype = NpDtype.c64 ∧
    propagationLayerDtype = NpDtype.c64 ∧
    ∀ k : ℕ, structureDtype (List.replicate k NpDtype.c64) = NpDtype.c64 := by
  refine ⟨rfl, rfl, rfl, fun k => ?_⟩
  induction k with
  | zero => rfl
  | succ k ih => simpa [structureDtype, List.replicate, List.foldl, promoteDtype]
      using ih

/-- C10: the three inverse solvers leave their bounding-matrix arguments
unchanged (boundary inversion builds fresh matrices via `numpy.linalg.inv`),
so repeated calls through the shared default `TransferMatrix(numpy.identity(2))`
instances keep receiving identity bounding matrices. -/
theorem bounding_args_not_mutated :
    (∀ (t r : ℂ) (B P : Mat), (findReciprocalTransferMatrixCall t r B P).2 = (B, P)) ∧
    (∀ (t r : ℂ) (B P : Mat),
      (findReciprocalTransferMatrixLegacyCall t r B P).2 = (B, P)) ∧
    (∀ (t1 r1 t2 r2 : ℂ) (B1 P1 B2 P2 : Mat),
      (findGeneralizedTransferMatrixCall t1 r1 t2 r2 B1 P1 B2 P2).2
        = ((B1, P1), (B2, P2))) ∧
    (∀ (t r : ℂ) (n : ℕ),
      reciprocalDefaultsAfter t r n = (defaultBoundingMat, defaultBoundingMat)) ∧
    defaultBoundingMat = (1 : Mat) := by
  refine ⟨fun _ _ _ _ => rfl, fun _ _ _ _ => rfl, fun _ _ _ _ _ _ _ _ => rfl,
    fun t r n => ?_, rfl⟩
  induction n with
  | zero => rfl
  | succ n ih => simp [reciprocalDefaultsAfter, findReciprocalTransferMatrixCall, ih]

theorem one_det_ne_zero : (1 : Mat).det ≠ 0 := by simp

theorem mat_inv_one : (1 : Mat)⁻¹ = 1 := Matrix.inv_eq_right_inv (one_mul 1)

theorem exceptOk_bind {α β : Type} (a : α) (f : α → Except Err β) :
    (Except.ok a >>= f) = f a := rfl

theorem exceptPure {β : Type} (a : β) : (pure a : Except Err β) = Except.ok a := rfl

theorem det_fin_four {R : Type} [CommRing R] (A : Matrix (Fin 4) (Fin 4) R) :
    A.det =
      A 0 0 * (A 1 1 * (A 2 2 * A 3 3 - A 2 3 * A 3 2)
        - A 1 2 * (A 2 1 * A 3 3 - A 2 3 * A 3 1)
        + A 1 3 * (A 2 1 * A 3 2 - A 2 2 * A 3 1))
    - A 0 1 * (A 1 0 * (A 2 2 * A 3 3 - A 2 3 * A 3 2)
        - A 1 2 * (A 2 0 * A 3 3 - A 2 3 * A 3 0)
        + A 1 3 * (A 2 0 * A 3 2 - A 2 2 * A 3 0))
    + A 0 2 * (A 1 0 * (A 2 1 * A 3 3 - A 2 3 * A 3 1)
        - A 1 1 * (A 2 0 * A 3 3 - A 2 3 * A 3 0)
        + A 1 3 * (A 2 0 * A 3 1 - A 2 1 * A 3 0))
    - A 0 3 * (A 1 0 * (A 2 1 * A 3 2 - A 2 2 * A 3 1)
        - A 1 1 * (A 2 0 * A 3 2 - A 2 2 * A 3 0)
        + A 1 2 * (A 2 0 * A 3 1 - A 2 1 * A 3 0)) := by
  rw [Matrix.det_succ_row_zero]
  simp [Fin.sum_univ_succ, Matrix.det_fin_three, Matrix.submatrix_apply, Fin.succAbove,
    Fin.lt_def]
  simp only [show (Fin.succ 2 : Fin 4) = 3 from rfl,
    show Fin.castSucc (2 : Fin 3) = (2 : Fin 4) from rfl]
  ring

theorem npInv_one : npInv (1 : Mat) = .ok 1 := by
  rw [npInv_eq_ok 1 one_det_ne_zero, mat_inv_one]

theorem findReciprocal_identity_bounds (t r : ℂ) (ht : t ≠ 0) :
    findReciprocalTransferMatrix t r 1 1 =
      .ok !![1 / conj t, r / t; conj (r / t), 1 / t] := by
  rw [findReciprocal_unfold t r 1 1 ht one_det_ne_zero one_det_ne_zero, mat_inv_one,
    one_mul, mul_one]

/-- C8 counterexample: `M = [[2, 0], [0, 2]]` satisfies the reciprocal ansatz
(`M11 = conj M00`, `M10 = conj M01`), has a nonsingular `solvePropagation`
system with nonzero transmittance, yet the round trip through
`findReciprocalTransferMatrix` returns `[[1/2, 0], [0, 1/2]] ≠ M`. -/
theorem reciprocal_roundtrip_fails :
    (!![2, 0; 0, 2] : Mat) 1 1 = conj ((!![2, 0; 0, 2] : Mat) 0 0) ∧
    (!![2, 0; 0, 2] : Mat) 1 0 = conj ((!![2, 0; 0, 2] : Mat) 0 1) ∧
    solvePropagation (!![2, 0; 0, 2] : Mat) 1 = .ok (0, 2) ∧
    findReciprocalTransferMatrix 2 0 1 1 = .ok !![1 / 2, 0; 0, 1 / 2] ∧
    (!![1 / 2, 0; 0, 1 / 2] : Mat) ≠ !![2, 0; 0, 2] := by
  refine ⟨by norm_num [map_ofNat], by norm_num, ?_, ?_, ?_⟩
  · rw [solvePropagation, npSolve_eq_ok _ _ ![0, 2] ?hdet ?hx]
    · rfl
    case hdet =>
      simp [solveLhs, Matrix.det_fin_two_of]
    case hx =>
      funext i
      fin_cases i <;>
        simp [solveLhs, solveRhs, Matrix.mulVec, Matrix.dotProduct, Fin.sum_univ_two]
  · rw [findReciprocal_identity_bounds 2 0 two_ne_zero]
    norm_num [map_ofNat, one_div]
  · intro h
    have := congrArg (fun A : Mat => A 0 0) h
    norm_num at this

/-- C8 (amended): a reciprocal matrix `M` (ansatz `M11 = conj M00`,
`M10 = conj M01`) with nonsingular `solvePropagation` system round-trips
through `solvePropagation` followed by `findReciprocalTransferMatrix` with
identity bounding matrices exactly under the additional lossless
normalization `det M = 1` with `M01` purely imaginary
(`conj M01 = -M01`). -/
theorem reciprocal_roundtrip (M : Mat)
    (h11 : M 1 1 = conj (M 0 0)) (h10 : M 1 0 = conj (M 0 1))
    (h00 : M 1 1 ≠ 0) (hdet : M.det = 1) (him : conj (M 0 1) = -(M 0 1)) :
    solvePropagation M 1 = .ok (-conj (M 0 1) / conj (M 0 0), 1 / conj (M 0 0)) ∧
    findReciprocalTransferMatrix (1 / conj (M 0 0)) (-conj (M 0 1) / conj (M 0 0)) 1 1
      = .ok M := by
  have ha : conj (M 0 0) ≠ 0 := h11 ▸ h00
  have ha' : M 0 0 ≠ 0 := fun h => ha (by rw [h, map_zero])
  have hdet' : M 0 0 * conj (M 0 0) - M 0 1 * conj (M 0 1) = 1 := by
    rw [Matrix.det_fin_two, h11, h10] at hdet
    linear_combination hdet
  constructor
  · rw [solvePropagation,
      npSolve_eq_ok _ _ ![-conj (M 0 1) / conj (M 0 0), 1 / conj (M 0 0)] ?hdet ?hx]
    · rfl
    case hdet =>
      simp [solveLhs, Matrix.det_fin_two_of, h11, ha]
    case hx =>
      funext i
      fin_cases i <;>
        simp only [solveLhs, solveRhs, Matrix.mulVec, Matrix.dotProduct,
          Fin.sum_univ_two, Matrix.cons_val', Matrix.cons_val_zero, Matrix.cons_val_one,
          Matrix.head_cons, Matrix.head_fin_const, Matrix.empty_val',
          Matrix.cons_val_fin_one, Matrix.of_apply, h11, h10]
      · field_simp
        linear_combination conj (M 0 0) * hdet'
      · field_simp
        ring
  · rw [findReciprocal_identity_bounds _ _ (one_div_ne_zero ha)]
    have hin : -conj (M 0 1) / conj (M 0 0) / (1 / conj (M 0 0)) = M 0 1 := by
      rw [one_div, div_inv_eq_mul, div_mul_cancel₀ _ ha, him, neg_neg]
    congr 1
    ext i j
    fin_cases i <;> fin_cases j <;>
      simp only [Fin.zero_eta, Fin.mk_one, Matrix.cons_val', Matrix.cons_val_zero,
        Matrix.cons_val_one, Matrix.head_cons, Matrix.head_fin_const, Matrix.empty_val',
        Matrix.cons_val_fin_one, Matrix.of_apply, Fin.isValue]
    · rw [map_div₀, map_one, Complex.conj_conj, one_div_one_div]
    · exact hin
    · rw [hin, h10]
    · rw [one_div_one_div, h11]

/-- Witness for the amended C8 at the identity matrix. -/
theorem reciprocal_roundtrip_witness :
    ((!![1, 0; 0, 1] : Mat) 1 1 = conj ((!![1, 0; 0, 1] : Mat) 0 0)) ∧
    ((!![1, 0; 0, 1] : Mat) 1 0 = conj ((!![1, 0; 0, 1] : Mat) 0 1)) ∧
    ((!![1, 0; 0, 1] : Mat) 1 1 ≠ 0) ∧
    (!![1, 0; 0, 1] : Mat).det = 1 ∧
    (conj ((!![1, 0; 0, 1] : Mat) 0 1) = -((!![1, 0; 0, 1] : Mat) 0 1)) ∧
    (solvePropagation (!![1, 0; 0, 1] : Mat) 1 =
        .ok (-conj ((!![1, 0; 0, 1] : Mat) 0 1) / conj ((!![1, 0; 0, 1] : Mat) 0 0),
          1 / conj ((!![1, 0; 0, 1] : Mat) 0 0)) ∧
      findReciprocalTransferMatrix (1 / conj ((!![1, 0; 0, 1] : Mat) 0 0))
        (-conj ((!![1, 0; 0, 1] : Mat) 0 1) / conj ((!![1, 0; 0, 1] : Mat) 0 0)) 1 1
        = .ok !![1, 0; 0, 1]) := by
  have h1 : (!![1, 0; 0, 1] : Mat) 1 1 = conj ((!![1, 0; 0, 1] : Mat) 0 0) := by simp
  have h2 : (!![1, 0; 0, 1] : Mat) 1 0 = conj ((!![1, 0; 0, 1] : Mat) 0 1) := by simp
  have h3 : (!![1, 0; 0, 1] : Mat) 1 1 ≠ 0 := by simp
  have h4 : (!![1, 0; 0, 1] : Mat).det = 1 := by simp [Matrix.det_fin_two_of]
  have h5 : conj ((!![1, 0; 0, 1] : Mat) 0 1) = -((!![1, 0; 0, 1] : Mat) 0 1) := by simp
  exact ⟨h1, h2, h3, h4, h5, reciprocal_roundtrip _ h1 h2 h3 h4 h5⟩

/-- C5 counterexample: at transmittance `1` and reflectance `1/2` (a reciprocal
input: `t ≠ 0`) with identity bounding matrices and a nonsingular legacy 4x4
system, the legacy solver returns `[[4/3, -2/3], [-2/3, 4/3]]` while
`findReciprocalTransferMatrix` returns `[[1, 1/2], [1/2, 1]]`. -/
theorem legacy_vs_reciprocal_differ :
    (legacyLhs ((1 / 2 : ℝ) : ℂ)).det ≠ 0 ∧
    findReciprocalTransferMatrixLegacy 1 ((1 / 2 : ℝ) : ℂ) 1 1
      ≠ findReciprocalTransferMatrix 1 ((1 / 2 : ℝ) : ℂ) 1 1 := by
  have hA : legacyLhs ((1 / 2 : ℝ) : ℂ) =
      !![1, 0, 1 / 2, 0; 0, 1, 0, -(1 / 2); 1 / 2, 0, 1, 0; 0, -(1 / 2), 0, 1] := by
    simp [legacyLhs]
  have hdet : (legacyLhs ((1 / 2 : ℝ) : ℂ)).det ≠ 0 := by
    rw [hA, det_fin_four]
    norm_num
  refine ⟨hdet, ?_⟩
  have hsol : npSolve (legacyLhs ((1 / 2 : ℝ) : ℂ)) (legacyRhs 1)
      = .ok ![4 / 3, 0, -(2 / 3), 0] := by
    refine npSolve_eq_ok _ _ _ hdet ?_
    funext i
    fin_cases i <;>
      (rw [hA]; norm_num [legacyRhs, Matrix.mulVec, Matrix.dotProduct, Fin.sum_univ_four])
  have hleg : findReciprocalTransferMatrixLegacy 1 ((1 / 2 : ℝ) : ℂ) 1 1
      = .ok !![4 / 3, -(2 / 3); -(2 / 3), 4 / 3] := by
    simp only [findReciprocalTransferMatrixLegacy, hsol, npInv_one, exceptOk_bind,
      exceptPure, one_mul, mul_one]
    congr 1
    ext i j
    fin_cases i <;> fin_cases j <;> simp
  have hnew : findReciprocalTransferMatrix 1 ((1 / 2 : ℝ) : ℂ) 1 1
      = .ok !![1, 1 / 2; 1 / 2, 1] := by
    rw [findReciprocal_identity_bounds 1 _ one_ne_zero]
    congr 1
    ext i j
    fin_cases i <;> fin_cases j <;>
      simp [Complex.conj_ofReal, map_ofNat]
  rw [hleg, hnew]
  intro h
  simp only [Except.ok.injEq] at h
  have h00 := congrArg (fun A : Mat => A 0 0) h
  simp only at h00
  norm_num at h00

/-- C5 (amended): the legacy and direct reciprocal solvers agree on a
reciprocal input `(t, r)` with the same invertible bounding matrices exactly
under the physical side conditions `|t|² + |r|² = 1` and `r/t` purely
imaginary (`(r · conj t).re = 0`); on arbitrary inputs with `t ≠ 0` they
differ. -/
theorem legacy_agrees_on_unitary (t r : ℂ) (B P : Mat)
    (ht : t ≠ 0) (hB : B.det ≠ 0) (hP : P.det ≠ 0)
    (hnorm : Complex.normSq t + Complex.normSq r = 1)
    (hre : (r * conj t).re = 0) :
    findReciprocalTransferMatrixLegacy t r B P = findReciprocalTransferMatrix t r B P := by
  have hs : Complex.normSq t ≠ 0 := (Complex.normSq_pos.2 ht).ne'
  have hS : t.re * t.re + t.im * t.im ≠ 0 := by
    simpa [Complex.normSq_apply] using hs
  have hnorm' : t.re * t.re + t.im * t.im + (r.re * r.re + r.im * r.im) = 1 := by
    simpa [Complex.normSq_apply] using hnorm
  have hre' : r.re * t.re + r.im * t.im = 0 := by
    have h := hre
    simp [Complex.mul_re, Complex.conj_re, Complex.conj_im] at h
    linarith
  have hdet4 : (legacyLhs r).det ≠ 0 := by
    have hval : (legacyLhs r).det = (1 - (r.re * r.re + r.im * r.im)) ^ 2 := by
      rw [det_fin_four]
      simp [legacyLhs]
      ring
    rw [hval]
    refine pow_ne_zero 2 ?_
    intro h0
    exact hS (by linarith)
  have hsolve : npSolve (legacyLhs r) (legacyRhs t) =
      .ok ![t.re / (t.re * t.re + t.im * t.im), t.im / (t.re * t.re + t.im * t.im), 0,
        -((r.im * t.re - r.re * t.im) / (t.re * t.re + t.im * t.im))] := by
    refine npSolve_eq_ok _ _ _ hdet4 ?_
    funext i
    fin_cases i
    · simp [legacyLhs, legacyRhs, Matrix.mulVec, Matrix.dotProduct, Fin.sum_univ_four]
      field_simp
      linear_combination r.re * hre' - t.re * hnorm'
    · simp [legacyLhs, legacyRhs, Matrix.mulVec, Matrix.dotProduct, Fin.sum_univ_four]
      field_simp
      linear_combination r.im * hre' - t.im * hnorm'
    · simp [legacyLhs, legacyRhs, Matrix.mulVec, Matrix.dotProduct, Fin.sum_univ_four]
      field_simp
      linear_combination hre'
    · simp [legacyLhs, legacyRhs, Matrix.mulVec, Matrix.dotProduct, Fin.sum_univ_four]
      field_simp
      ring
  have hM : (!![((t.re / (t.re * t.re + t.im * t.im) : ℝ) : ℂ)
          + ((t.im / (t.re * t.re + t.im * t.im) : ℝ) : ℂ) * Complex.I,
        ((0 : ℝ) : ℂ)
          - ((-((r.im * t.re - r.re * t.im) / (t.re * t.re + t.im * t.im)) : ℝ) : ℂ)
            * Complex.I;
        ((0 : ℝ) : ℂ)
          + ((-((r.im * t.re - r.re * t.im) / (t.re * t.re + t.im * t.im)) : ℝ) : ℂ)
            * Complex.I,
        ((t.re / (t.re * t.re + t.im * t.im) : ℝ) : ℂ)
          - ((t.im / (t.re * t.re + t.im * t.im) : ℝ) : ℂ) * Complex.I] : Mat)
      = !![1 / conj t, r / t; conj (r / t), 1 / t] := by
    ext i j
    fin_cases i <;> fin_cases j <;>
      · simp only [Fin.zero_eta, Fin.mk_one, Matrix.cons_val', Matrix.cons_val_zero,
          Matrix.cons_val_one, Matrix.head_cons, Matrix.head_fin_const, Matrix.empty_val',
          Matrix.cons_val_fin_one, Matrix.of_apply, Fin.isValue]
        apply Complex.ext <;>
          · simp [one_div, Complex.inv_re, Complex.inv_im, Complex.div_re, Complex.div_im,
              Complex.normSq_apply, Complex.normSq_conj, Complex.conj_re, Complex.conj_im,
              Complex.add_re, Complex.add_im, Complex.sub_re, Complex.sub_im,
              Complex.mul_re, Complex.mul_im, Complex.ofReal_re, Complex.ofReal_im,
              Complex.I_re, Complex.I_im, Complex.neg_re, Complex.neg_im]
            try field_simp
            try first
              | ring1
              | linear_combination hre'
              | linear_combination (-1 : ℝ) * hre'
              | linear_combination (2 : ℝ) * hre'
              | linear_combination (-2 : ℝ) * hre'
  simp only [findReciprocalTransferMatrixLegacy, hsolve, npInv_eq_ok B hB,
    npInv_eq_ok P hP, exceptOk_bind, exceptPure]
  rw [findReciprocal_unfold t r B P ht hB hP]
  exact congrArg Except.ok (congrArg (fun X : Mat => B⁻¹ * X * P⁻¹) hM)

/-- Witness for the amended C5 at `t = 1`, `r = 0`, identity bounding matrices. -/
theorem legacy_agrees_on_unitary_witness :
    (1 : ℂ) ≠ 0 ∧ (1 : Mat).det ≠ 0 ∧
    Complex.normSq 1 + Complex.normSq 0 = 1 ∧ ((0 : ℂ) * conj 1).re = 0 ∧
    findReciprocalTransferMatrixLegacy 1 0 1 1 = findReciprocalTransferMatrix 1 0 1 1 :=
  ⟨one_ne_zero, one_det_ne_zero, by simp, by simp,
    legacy_agrees_on_unitary 1 0 1 1 one_ne_zero one_det_ne_zero one_det_ne_zero
      (by simp) (by simp)⟩

/-- C6: the code evaluated at a failing input. Both measurement pairs are
derived via `solvePropagation` from the same matrix `M = [[1, 2], [3, 4]]`
sandwiched in the bounding matrices (`B1 = P1 = P2 = 1`, `B2 = [[1, 0], [1, 1]]`),
the assembled 4x4 system is nonsingular, yet `findGeneralizedTransferMatrix`
returns the transpose `[[1, 3], [2, 4]]` instead of `M`. -/
theorem findGeneralized_returns_transpose :
    solvePropagation ((1 : Mat) * !![1, 2; 3, 4] * 1) 1 = .ok (-3 / 4, -1 / 2) ∧
    solvePropagation ((!![1, 0; 1, 1] : Mat) * !![1, 2; 3, 4] * 1) 1
      = .ok (-2 / 3, -1 / 3) ∧
    findGeneralizedTransferMatrix (-1 / 2) (-3 / 4) (-1 / 3) (-2 / 3)
      1 1 !![1, 0; 1, 1] 1 = .ok !![1, 3; 2, 4] ∧
    (!![1, 3; 2, 4] : Mat) ≠ !![1, 2; 3, 4] := by
  refine ⟨?_, ?_, ?_, ?_⟩
  · rw [one_mul, mul_one, solvePropagation,
      npSolve_eq_ok _ _ ![-3 / 4, -1 / 2] ?hdet ?hx]
    · rfl
    case hdet =>
      simp [solveLhs, Matrix.det_fin_two_of]
    case hx =>
      funext i
      fin_cases i <;>
        norm_num [solveLhs, solveRhs, Matrix.mulVec, Matrix.dotProduct, Fin.sum_univ_two]
  · have hprod : (!![1, 0; 1, 1] : Mat) * !![1, 2; 3, 4] * 1 = !![1, 2; 4, 6] := by
      rw [mul_one]
      norm_num [Matrix.mul_fin_two]
    rw [hprod, solvePropagation, npSolve_eq_ok _ _ ![-2 / 3, -1 / 3] ?hdet ?hx]
    · rfl
    case hdet =>
      simp [solveLhs, Matrix.det_fin_two_of]
    case hx =>
      funext i
      fin_cases i <;>
        norm_num [solveLhs, solveRhs, Matrix.mulVec, Matrix.dotProduct, Fin.sum_univ_two]
  · have hB2inv : npInv !![1, 0; 1, 1] = .ok !![1, 0; -1, 1] := by
      refine npInv_eq_ok_of_mul_eq_one _ _ ?_
      rw [Matrix.one_fin_two]
      norm_num [Matrix.mul_fin_two]
    have ha12 : (1 : Mat).mulVec ![-1 / 2, 0] = ![-1 / 2, 0] := Matrix.one_mulVec _
    have ha34 : (!![1, 0; -1, 1] : Mat).mulVec ![-1 / 3, 0] = ![-1 / 3, 1 / 3] := by
      funext i
      fin_cases i <;>
        norm_num [Matrix.mulVec, Matrix.dotProduct, Fin.sum_univ_two]
    have hb12 : (1 : Mat).mulVec ![1, -3 / 4] = ![1, -3 / 4] := Matrix.one_mulVec _
    have hb34 : (1 : Mat).mulVec ![1, -2 / 3] = ![1, -2 / 3] := Matrix.one_mulVec _
    have hsol4 : npSolve
        (!![(1 : ℂ), -3 / 4, 0, 0; 1, -2 / 3, 0, 0; 0, 0, 1, -3 / 4; 0, 0, 1, -2 / 3])
        ![-1 / 2, -1 / 3, 0, 1 / 3] = .ok ![1, 2, 3, 4] := by
      refine npSolve_eq_ok _ _ _ ?_ ?_
      · rw [det_fin_four]
        simp only [Matrix.cons_val', Matrix.cons_val_zero, Matrix.cons_val_one,
          Matrix.head_cons, Matrix.cons_val_two, Matrix.cons_val_three, Matrix.tail_cons,
          Matrix.head_fin_const, Matrix.empty_val', Matrix.cons_val_fin_one,
          Matrix.of_apply]
        norm_num
      · funext i
        fin_cases i <;>
          norm_num [Matrix.mulVec, Matrix.dotProduct, Fin.sum_univ_four]
    simp only [findGeneralizedTransferMatrix, npInv_one, hB2inv, exceptOk_bind,
      ha12, ha34, hb12, hb34, Matrix.cons_val_zero, Matrix.cons_val_one,
      Matrix.head_cons, Matrix.cons_val_two, Matrix.cons_val_three, Matrix.tail_cons,
      Matrix.head_fin_const, hsol4, exceptPure]
  · intro h
    have h01 := congrArg (fun A : Mat => A 0 1) h
    simp only [Matrix.cons_val', Matrix.cons_val_zero, Matrix.cons_val_one,
      Matrix.head_cons, Matrix.head_fin_const, Matrix.empty_val',
      Matrix.cons_val_fin_one, Matrix.of_apply] at h01
    norm_num at h01

